import Mathlib

/-!
# Loan-approval rule engine: shallow embedding and verification

Shallow embedding of the core of the `loan-approval` repository:

* `src/models/rule.py` — `Rule.evaluate`, `Rule._evaluate_condition`
* `src/models/applicant.py` — `Applicant`
* `src/engine/rule_base.py` — the 8 built-in rules, `get_rule_by_id`,
  `remove_rule`, `add_rule`, `get_rules_by_consequent`
* `src/engine/conflict_resolver.py` — `resolve`, `_resolve_by_priority`,
  `_resolve_by_specificity`, `_resolve_by_priority_specificity`,
  `resolve_by_decision`
* `src/engine/forward_chaining.py` — `ForwardChaining.infer`
* `src/engine/backward_chaining.py` — `BackwardChaining.infer`, `_prove_goal`
* `src/engine/rule_engine.py` — `RuleEngine.evaluate_applicant` (merge step)
* `src/utils/trace_logger.py` — `TraceLogger.log`, `get_summary`

Modelling conventions:

* Python numbers (int and float) are modelled as exact rationals `ℚ`; all
  numeric literals appearing in the rule base are integers, so no rounding
  behaviour is lost.
* Python exceptions are modelled with `Except Unit`: `_evaluate_condition`
  may raise (e.g. a `TypeError` from comparing a number with a string), and
  the `try/except` in `Rule.evaluate` maps any such exception to `False`
  for the whole rule.
* `getattr(applicant, attr, None)` is modelled by a total lookup function
  returning `Option`; `None` stands for a missing attribute.
* Trace logging never influences control flow in the source (the loggers
  are write-only during inference), so the decision-computing functions are
  modelled without the logger; the `TraceLogger` itself is modelled
  separately (its entry timestamps, which are wall-clock strings, are
  irrelevant to every property below and are omitted from the entry record).
-/

/-- A value stored in an applicant attribute: a Python number (int/float,
modelled as an exact rational) or a string. -/
inductive AttrVal where
  | num (q : ℚ)
  | str (s : String)
deriving DecidableEq, Repr

/-- The operand of a condition triple `(attribute, operator, value)`:
a scalar number, a scalar string, or (for `in_range`) a pair `(lo, hi)`. -/
inductive Operand where
  | num (q : ℚ)
  | str (s : String)
  | pair (lo hi : ℚ)
deriving DecidableEq, Repr

/-- One antecedent condition `(attribute, operator, value)` as stored in
`Rule.antecedents` (src/models/rule.py). The operator is kept as a string,
exactly as in the source, so that unrecognized operators can be modelled. -/
structure Condition where
  attr : String
  op : String
  operand : Operand
deriving DecidableEq, Repr

/-- `Rule` (src/models/rule.py): identifier, ordered antecedents, consequent
decision label, priority label and specificity. The diagnostic
`fired_count` plays no role in any verified property and is omitted. -/
structure Rule where
  rule_id : String
  antecedents : List Condition
  consequent : String
  priority : String
  specificity : Int
deriving DecidableEq, Repr

/-- `Applicant` (src/models/applicant.py): the fact record. `decision` is
the mutable result field (initially `None` in the source, hence `Option`). -/
structure Applicant where
  applicant_id : String
  income : ℚ
  credit_score : ℚ
  employment_status : String
  employment_duration : ℚ
  age : ℚ
  dependents : ℚ
  existing_debt : String
  decision : Option String := none
deriving DecidableEq, Repr

/-- `getattr(applicant, attr, None)` restricted to the fields of the
`Applicant` record (the reasoning-trace list field is not consultable by
conditions in this model; no rule in the repository names it). A `none`
result models Python `None` — either a genuinely absent attribute or the
unset `decision` field. -/
def getAttr (a : Applicant) : String → Option AttrVal
  | "applicant_id" => some (.str a.applicant_id)
  | "income" => some (.num a.income)
  | "credit_score" => some (.num a.credit_score)
  | "employment_status" => some (.str a.employment_status)
  | "employment_duration" => some (.num a.employment_duration)
  | "age" => some (.num a.age)
  | "dependents" => some (.num a.dependents)
  | "existing_debt" => some (.str a.existing_debt)
  | "decision" => a.decision.map AttrVal.str
  | _ => none

/-- Python ordered comparison `x < y` between two attribute-level values:
defined on number/number and string/string (lexicographic by code point,
as Python does), a `TypeError` (modelled as `Except.error`) on mixed
types. -/
def pyLt : AttrVal → AttrVal → Except Unit Bool
  | .num x, .num y => .ok (decide (x < y))
  | .str x, .str y => .ok (decide (x < y))
  | _, _ => .error ()

/-- Python equality `x == y` between attribute-level values: total, `False`
across number/string (no exception), value equality otherwise. -/
def pyEq : AttrVal → AttrVal → Bool
  | .num x, .num y => x == y
  | .str x, .str y => x == y
  | _, _ => false

/-- `Rule._evaluate_condition` (src/models/rule.py lines 53–75), for one
condition against one applicant. Faithful points:

* missing attribute (`getattr` default `None`) returns `False` outright;
* `>`, `>=`, `<`, `<=` delegate to Python comparison and may raise
  `TypeError` on mixed number/string operands (also when the operand is a
  tuple, which Python does not order against scalars);
* `==` / `!=` are total in Python, so mixed types give `False` / `True`;
* `in_range` evaluates `value[0] <= applicant_value <= value[1]`: with a
  tuple operand this is the inclusive bounds check when the attribute is a
  number and a `TypeError` when it is a string; scalar operands are not
  subscriptable (numbers) or subscript into characters (strings), both of
  which end in an exception on the rule base's numeric comparisons — the
  string-operand case is conservatively modelled as an error, matching
  Python whenever the compared attribute is numeric, which is the only
  shape the repository ever builds;
* any other operator string returns `False` (the final `else`). -/
def evalCondition (a : Applicant) (c : Condition) : Except Unit Bool :=
  match getAttr a c.attr with
  | none => .ok false
  | some v =>
    if c.op == ">" then
      match c.operand with
      | .num y => pyLt (.num y) v
      | .str y => pyLt (.str y) v
      | .pair _ _ => .error ()
    else if c.op == ">=" then
      match c.operand with
      | .num y => do pure (!(← pyLt v (.num y)))
      | .str y => do pure (!(← pyLt v (.str y)))
      | .pair _ _ => .error ()
    else if c.op == "<" then
      match c.operand with
      | .num y => pyLt v (.num y)
      | .str y => pyLt v (.str y)
      | .pair _ _ => .error ()
    else if c.op == "<=" then
      match c.operand with
      | .num y => do pure (!(← pyLt (.num y) v))
      | .str y => do pure (!(← pyLt (.str y) v))
      | .pair _ _ => .error ()
    else if c.op == "==" then
      match c.operand with
      | .num y => .ok (pyEq v (.num y))
      | .str y => .ok (pyEq v (.str y))
      | .pair _ _ => .ok false
    else if c.op == "!=" then
      match c.operand with
      | .num y => .ok (!pyEq v (.num y))
      | .str y => .ok (!pyEq v (.str y))
      | .pair _ _ => .ok true
    else if c.op == "in_range" then
      match c.operand, v with
      | .pair lo hi, .num x => .ok (decide (lo ≤ x) && decide (x ≤ hi))
      | _, _ => .error ()
    else
      .ok false

/-- A condition counts as satisfied exactly when its evaluation completes
and returns `True`; an exception or a `False` result both leave the owning
rule unsatisfied. -/
def condSat (a : Applicant) (c : Condition) : Bool :=
  match evalCondition a c with
  | .ok true => true
  | _ => false

/-- The loop body of `Rule.evaluate` (src/models/rule.py lines 29–51):
conditions are checked in order; the first `False` stops the loop with
result `False`; an exception anywhere is caught by the surrounding
`try/except`, which returns `False` for the whole rule. -/
def evalAntecedents (a : Applicant) : List Condition → Bool
  | [] => true
  | c :: cs =>
    match evalCondition a c with
    | .error _ => false
    | .ok false => false
    | .ok true => evalAntecedents a cs

/-- `Rule.evaluate(applicant)`. -/
def evalRule (r : Rule) (a : Applicant) : Bool :=
  evalAntecedents a r.antecedents

/-- The 8 built-in rules of `RuleBase._initialize_rules`
(src/engine/rule_base.py lines 15–121), in insertion order. -/
def builtinRules : List Rule :=
  [ { rule_id := "R1"
      antecedents := [⟨"income", ">", .num 60000⟩, ⟨"credit_score", ">", .num 750⟩]
      consequent := "Approve Loan", priority := "High", specificity := 2 },
    { rule_id := "R2"
      antecedents := [⟨"income", "in_range", .pair 40000 60000⟩,
                      ⟨"credit_score", ">", .num 700⟩,
                      ⟨"existing_debt", "==", .str "None"⟩]
      consequent := "Approve with Conditions", priority := "Medium", specificity := 3 },
    { rule_id := "R3"
      antecedents := [⟨"credit_score", "<=", .num 650⟩,
                      ⟨"existing_debt", "==", .str "High"⟩]
      consequent := "Reject Loan", priority := "High", specificity := 2 },
    { rule_id := "R4"
      antecedents := [⟨"employment_status", "==", .str "Unemployed"⟩]
      consequent := "Reject Loan", priority := "High", specificity := 1 },
    { rule_id := "R5"
      antecedents := [⟨"income", "in_range", .pair 30000 50000⟩,
                      ⟨"credit_score", "in_range", .pair 600 700⟩]
      consequent := "Manual Review", priority := "Low", specificity := 2 },
    { rule_id := "R6"
      antecedents := [⟨"age", "<", .num 21⟩]
      consequent := "Reject Loan", priority := "High", specificity := 1 },
    { rule_id := "R7"
      antecedents := [⟨"dependents", ">", .num 3⟩, ⟨"income", "<", .num 45000⟩]
      consequent := "Manual Review", priority := "Low", specificity := 2 },
    { rule_id := "R8"
      antecedents := [⟨"employment_duration", "<", .num 1⟩,
                      ⟨"credit_score", "<", .num 700⟩]
      consequent := "Manual Review", priority := "Low", specificity := 2 } ]

example : evalRule (builtinRules.get ⟨0, by decide⟩)
    { applicant_id := "A1", income := 70000, credit_score := 760,
      employment_status := "Employed", employment_duration := 5, age := 30,
      dependents := 2, existing_debt := "Low" } = true := by decide

/-! ## Conflict resolver (src/engine/conflict_resolver.py) -/

/-- `Config.PRIORITY_LEVELS.get(p, 0)` (src/config.py):
High ↦ 3, Medium ↦ 2, Low ↦ 1, anything else ↦ 0. -/
def priorityScore (p : String) : Nat :=
  if p == "High" then 3 else if p == "Medium" then 2 else if p == "Low" then 1 else 0

/-- The sort key of `_resolve_by_priority` and
`_resolve_by_priority_specificity`: the Python tuple
`(priority_levels.get(r.priority, 0), r.specificity, r.rule_id)`, compared
lexicographically (Python tuple order = `Prod.Lex`). -/
def priorityKey (r : Rule) : Lex (Nat × Lex (Int × String)) :=
  toLex (priorityScore r.priority, toLex (r.specificity, r.rule_id))

/-- The sort key of `_resolve_by_specificity`: the Python tuple
`(r.specificity, priority_levels.get(r.priority, 0), r.rule_id)`. -/
def specificityKey (r : Rule) : Lex (Int × Lex (Nat × String)) :=
  toLex (r.specificity, toLex (priorityScore r.priority, r.rule_id))

/-- CPython `max(x :: xs, key)`: start from the first element and replace
the current best whenever a later element's key is strictly greater — on
key ties the earlier element is kept. -/
def maxBy {K : Type} [LinearOrder K] (key : Rule → K) (x : Rule) (xs : List Rule) : Rule :=
  xs.foldl (fun best r => if key best < key r then r else best) x

/-- `ConflictResolver.resolve(fired_rules)` (src/engine/conflict_resolver.py
lines 21–56): `None` for an empty list, the sole element for a singleton,
otherwise dispatch on the strategy string, with the first element as the
fallback for an unrecognized strategy. The `except (TypeError,
AttributeError)` branches of the three strategy helpers are unreachable in
this typed model (keys always compare), so they are not represented. -/
def resolve (strategy : String) (firedRules : List Rule) : Option Rule :=
  match firedRules with
  | [] => none
  | [r] => some r
  | r :: rs =>
    if strategy == "priority" then some (maxBy priorityKey r rs)
    else if strategy == "specificity" then some (maxBy specificityKey r rs)
    else if strategy == "priority_specificity" then some (maxBy priorityKey r rs)
    else some r

/-- The running `best_score` of `resolve_by_decision`: initially the Python
int `-1`, afterwards a 3-tuple. Python 3 refuses to order a tuple against
an int, so the comparison of the two constructors is a `TypeError`. -/
inductive ScoreVal where
  | int (n : Int)
  | tup (t : Lex (Nat × Lex (Nat × Int)))
deriving DecidableEq

/-- Python `a > b` on `best_score` values: lexicographic on two tuples,
`TypeError` (modelled as `Except.error`) between a tuple and an int. -/
def scoreGt : ScoreVal → ScoreVal → Except Unit Bool
  | .int a, .int b => .ok (decide (b < a))
  | .tup a, .tup b => .ok (decide (b < a))
  | _, _ => .error ()

/-- `Config.CONFLICT_RESOLUTION_STRATEGY` (src/config.py). -/
def defaultStrategy : String := "priority_specificity"

/-- The fixed decision-precedence table of `resolve_by_decision` and of the
orchestrator's merge step (`decision_priority` in both files), as
`dict.get(d, 0)`. -/
def decisionScore (d : String) : Nat :=
  if d == "Reject Loan" then 4
  else if d == "Manual Review" then 3
  else if d == "Approve with Conditions" then 2
  else if d == "Approve Loan" then 1
  else 0

/-- The loop body of `resolve_by_decision` for one `(decision, rules)`
group: skip empty groups; inside the `try`, pick the group's best rule via
`resolve`, build the score tuple and compare it with `best_score` — a
`TypeError` or `AttributeError` is caught and the group is skipped
(`continue`). `resolve` returning `None` for a non-empty group cannot
happen, but the `AttributeError` that `None.priority` would raise is
modelled by the same skip. -/
def rbdStep (strategy : String) (acc : Option String × ScoreVal)
    (g : String × List Rule) : Option String × ScoreVal :=
  if g.2.isEmpty then acc
  else
    match resolve strategy g.2 with
    | none => acc
    | some bestRule =>
      let score : ScoreVal :=
        .tup (toLex (decisionScore g.1,
          toLex (priorityScore bestRule.priority, bestRule.specificity)))
      match scoreGt score acc.2 with
      | .error _ => acc
      | .ok true => (some g.1, score)
      | .ok false => acc

/-- `ConflictResolver.resolve_by_decision(rules_by_decision)`
(src/engine/conflict_resolver.py lines 91–133). The Python dict is
modelled as an association list in insertion order; `best_decision` starts
as `None` and `best_score` as the int `-1`; the final line is
`return best_decision or 'Manual Review'`. -/
def resolveByDecision (strategy : String) (groups : List (String × List Rule)) : String :=
  ((groups.foldl (rbdStep strategy) (none, .int (-1))).1).getD "Manual Review"

/-- Every step of `resolve_by_decision` that reaches the score comparison
compares a tuple against the initial int `-1`, raising `TypeError`, which
the `except` clause turns into `continue`; hence the accumulator never
changes. -/
theorem rbdStep_fixed (strategy : String) (g : String × List Rule) :
    rbdStep strategy (none, .int (-1)) g = (none, .int (-1)) := by
  unfold rbdStep
  cases h : g.2.isEmpty with
  | true => simp [h]
  | false =>
    simp only [h, Bool.false_eq_true, if_false]
    cases hr : resolve strategy g.2 with
    | none => rfl
    | some bestRule => simp [scoreGt]

/-- `resolve_by_decision` returns `'Manual Review'` on every input: the
precedence table is dead code (see `rbdStep_fixed`). -/
theorem resolveByDecision_const (strategy : String)
    (groups : List (String × List Rule)) :
    resolveByDecision strategy groups = "Manual Review" := by
  have h : groups.foldl (rbdStep strategy) (none, .int (-1)) =
      ((none : Option String), ScoreVal.int (-1)) := by
    induction groups with
    | nil => rfl
    | cons g gs ih => rw [List.foldl_cons, rbdStep_fixed]; exact ih
  rw [resolveByDecision, h]; rfl

/-! ## Forward chaining (src/engine/forward_chaining.py) -/

/-- Appending a fired rule to the `decisions` dict
(`decisions[rule.consequent].append(rule)`, creating the key on first
use). Python dicts preserve insertion order, so the dict is an association
list in key-insertion order. -/
def addToGroups (gs : List (String × List Rule)) (r : Rule) :
    List (String × List Rule) :=
  if gs.any (fun p => p.1 == r.consequent) then
    gs.map (fun p => if p.1 == r.consequent then (p.1, p.2 ++ [r]) else p)
  else
    gs ++ [(r.consequent, [r])]

/-- One pass of the forward-chaining `while` loop: evaluate, in rule-base
order, every rule whose id is not already among the fired ids; the ones
that evaluate `True` fire this pass. (Inside one pass the fired list is the
snapshot from before the pass, matching the source, where
`rules_fired` is only extended after the inner `for`.) -/
def fcNewlyFired (rules : List Rule) (a : Applicant) (fired : List Rule) :
    List Rule :=
  rules.filter (fun r =>
    !(fired.any (fun f => f.rule_id == r.rule_id)) && evalRule r a)

/-- The bounded fixed-point loop of `ForwardChaining.infer`
(src/engine/forward_chaining.py lines 49–77): `fuel` is the remaining
iteration budget (`max_iterations - iteration`), initially
`2 * len(rules)`; each executed pass counts, and the loop breaks as soon
as a pass fires nothing new. Returns the fired rules, the decision groups
and the number of passes executed. -/
def fcLoop (rules : List Rule) (a : Applicant) :
    Nat → List Rule → List (String × List Rule) → Nat →
    List Rule × List (String × List Rule) × Nat
  | 0, fired, gs, passes => (fired, gs, passes)
  | fuel + 1, fired, gs, passes =>
    let newRules := fcNewlyFired rules a fired
    let gs' := newRules.foldl addToGroups gs
    let fired' := fired ++ newRules
    if newRules.isEmpty then (fired', gs', passes + 1)
    else fcLoop rules a fuel fired' gs' (passes + 1)

/-- The full forward-chaining run, returning what the claims consume. -/
def fcRun (rules : List Rule) (a : Applicant) :
    List Rule × List (String × List Rule) × Nat :=
  fcLoop rules a (2 * rules.length) [] [] 0

/-- The number of fixed-point passes `ForwardChaining.infer` executes. -/
def fcPasses (rules : List Rule) (a : Applicant) : Nat :=
  (fcRun rules a).2.2

/-- The decision `ForwardChaining.infer` computes
(src/engine/forward_chaining.py lines 79–85): more than one distinct
derived decision delegates to `resolve_by_decision`; exactly one returns
that key; none returns the `'Manual Review'` default. -/
def fcDecision (rules : List Rule) (a : Applicant) : String :=
  let gs := (fcRun rules a).2.1
  if gs.length > 1 then resolveByDecision defaultStrategy gs
  else match gs with
    | (d, _) :: _ => d
    | [] => "Manual Review"

/-! ## Backward chaining (src/engine/backward_chaining.py) -/

/-- The two memo sets of `BackwardChaining`, reset at the start of each
`infer` run. -/
structure BCState where
  proven : List String
  failed : List String
deriving DecidableEq, Repr

/-- `BackwardChaining._prove_goal(goal, applicant, depth)`
(src/engine/backward_chaining.py lines 64–129). Checks, in source order:
already proven, already failed, the recursion-depth guard (`depth > 10`),
no rule with this consequent, then evaluates each matching rule — one
satisfied rule proves the goal. (The conflict resolver is consulted in the
source only to name the winning rule in the trace; it does not affect the
returned truth value, so it is not re-run here.) The function contains no
recursive call, so the depth guard is never exercised with `depth = 0`. -/
def proveGoal (rules : List Rule) (a : Applicant) (st : BCState)
    (goal : String) (depth : Nat) : Bool × BCState :=
  if goal ∈ st.proven then (true, st)
  else if goal ∈ st.failed then (false, st)
  else if depth > 10 then (false, st)
  else
    let rulesForGoal := rules.filter (fun r => r.consequent == goal)
    if rulesForGoal.isEmpty then
      (false, { st with failed := st.failed ++ [goal] })
    else
      let satisfied := rulesForGoal.filter (fun r => evalRule r a)
      if satisfied.isEmpty then
        (false, { st with failed := st.failed ++ [goal] })
      else
        (true, { st with proven := st.proven ++ [goal] })

/-- The goal preference order of `BackwardChaining.infer`
(src/engine/backward_chaining.py line 43). -/
def bcGoals : List String :=
  ["Reject Loan", "Approve Loan", "Approve with Conditions", "Manual Review"]

/-- The goal loop of `BackwardChaining.infer`: try each goal at depth 0,
threading the memo state, and stop at the first proven one. -/
def bcGo (rules : List Rule) (a : Applicant) (st : BCState) :
    List String → Option String
  | [] => none
  | g :: gs =>
    let (b, st') := proveGoal rules a st g 0
    if b then some g else bcGo rules a st' gs

/-- The decision `BackwardChaining.infer` computes: the first provable goal
in preference order, else the `'Manual Review'` default. -/
def bcDecision (rules : List Rule) (a : Applicant) : String :=
  (bcGo rules a ⟨[], []⟩ bcGoals).getD "Manual Review"

example : fcDecision builtinRules
    { applicant_id := "A1", income := 70000, credit_score := 760,
      employment_status := "Employed", employment_duration := 5, age := 30,
      dependents := 2, existing_debt := "Low" } = "Approve Loan" := by decide

example : bcDecision builtinRules
    { applicant_id := "A1", income := 70000, credit_score := 760,
      employment_status := "Employed", employment_duration := 5, age := 30,
      dependents := 2, existing_debt := "Low" } = "Approve Loan" := by decide

/-! ## Orchestrator (src/engine/rule_engine.py, `chaining_type='both'`) -/

/-- The `decision_priority` dict of `evaluate_applicant`
(src/engine/rule_engine.py lines 78–83), accessed with plain indexing
`decision_priority[d]` — a `KeyError` (modelled as `none`) on any label
outside the four. -/
def decisionPriorityIdx (d : String) : Option Nat :=
  if d == "Reject Loan" then some 4
  else if d == "Manual Review" then some 3
  else if d == "Approve with Conditions" then some 2
  else if d == "Approve Loan" then some 1
  else none

/-- The merge step of `evaluate_applicant` when both strategies ran
(src/engine/rule_engine.py lines 69–94): agreement makes the shared
decision final with the agreement reasoning; disagreement indexes the
precedence dict for both candidates (propagating `KeyError` as `none`) and
keeps the forward decision on `>=`, else the backward one, with both
original opinions recorded in the reasoning string. -/
def mergeDecisions (fc bc : String) : Option (String × String) :=
  if fc == bc then some (fc, "Both forward and backward chaining agree")
  else
    match decisionPriorityIdx fc, decisionPriorityIdx bc with
    | some pf, some pb =>
      some (if pf ≥ pb then fc else bc,
            "Forward chaining: " ++ fc ++ ", Backward chaining: " ++ bc)
    | _, _ => none

/-- The observable outcome of one `RuleEngine.evaluate_applicant` call with
`chaining_type='both'`: the applicant record as left after the call, the
successive values written to its `decision` field, and the final decision
and reasoning of the returned result dict. -/
structure EvalRun where
  applicant : Applicant
  decisionWrites : List String
  finalDecision : String
  reasoning : String
deriving DecidableEq, Repr

/-- `RuleEngine.evaluate_applicant(applicant)` with `chaining_type='both'`
(src/engine/rule_engine.py lines 30–94), tracking every write to the
applicant's `decision` field: forward chaining writes its decision
(src/engine/forward_chaining.py line 90), then backward chaining — run
against the record forward chaining just mutated — writes its decision
(src/engine/backward_chaining.py line 60), then the orchestrator writes
the merged decision (src/engine/rule_engine.py line 92). `none` models the
`KeyError` escape of the merge step, which the built-in rule base never
triggers. -/
def evaluateApplicantBoth (rules : List Rule) (a : Applicant) : Option EvalRun :=
  let fc := fcDecision rules a
  let a1 : Applicant := { a with decision := some fc }
  let bc := bcDecision rules a1
  let a2 : Applicant := { a1 with decision := some bc }
  match mergeDecisions fc bc with
  | none => none
  | some (final, why) =>
    some { applicant := { a2 with decision := some final }
           decisionWrites := [fc, bc, final]
           finalDecision := final
           reasoning := why }

/-! ## Trace logger (src/utils/trace_logger.py) -/

/-- One trace entry: level tag, message and optional rule id. The
wall-clock `timestamp` field never influences any verified property and is
omitted. -/
structure TraceEntry where
  level : String
  message : String
  rule_id : Option String
deriving DecidableEq, Repr

/-- The `TraceLogger` state: configured capacity (`max_depth`, default 50
via `Config.MAX_TRACE_DEPTH`) and the entry list. -/
structure TraceLogger where
  max_depth : Nat := 50
  trace : List TraceEntry := []
deriving DecidableEq, Repr

/-- `TraceLogger.log(level, message, rule_id)` (src/utils/trace_logger.py
lines 28–44): append only while `len(self.trace) < self.max_depth`,
otherwise silently do nothing. -/
def TraceLogger.log (tl : TraceLogger) (level message : String)
    (rule_id : Option String := none) : TraceLogger :=
  if tl.trace.length < tl.max_depth then
    { tl with trace := tl.trace ++ [⟨level, message, rule_id⟩] }
  else tl

/-- The summary counters of `TraceLogger.get_summary`
(src/utils/trace_logger.py lines 70–80). -/
structure TraceSummary where
  total_entries : Nat
  rules_fired : Nat
  conflicts_resolved : Nat
  trace : List TraceEntry
deriving DecidableEq, Repr

/-- `TraceLogger.get_summary()`. -/
def TraceLogger.get_summary (tl : TraceLogger) : TraceSummary :=
  { total_entries := tl.trace.length
    rules_fired := (tl.trace.filter (fun e => e.level == "RULE_FIRE")).length
    conflicts_resolved := (tl.trace.filter (fun e => e.level == "CONFLICT")).length
    trace := tl.trace }

/-- Replaying a whole run's worth of log calls onto a logger. -/
def TraceLogger.logAll (tl : TraceLogger)
    (events : List (String × String × Option String)) : TraceLogger :=
  events.foldl (fun t e => t.log e.1 e.2.1 e.2.2) tl

/-! ## Rule base operations (src/engine/rule_base.py) -/

/-- `RuleBase.get_rule_by_id(rule_id)` (src/engine/rule_base.py lines
128–133): scan in insertion order, return the first match, `None` if no
rule matches. -/
def getRuleById : List Rule → String → Option Rule
  | [], _ => none
  | r :: rs, rid => if r.rule_id == rid then some r else getRuleById rs rid

/-- `RuleBase.remove_rule(rule_id)` (src/engine/rule_base.py lines
139–145): keep exactly the rules whose id differs. -/
def removeRule (rules : List Rule) (rid : String) : List Rule :=
  rules.filter (fun r => !(r.rule_id == rid))

/-- `RuleBase.add_rule(rule)` (src/engine/rule_base.py lines 135–137):
unconditional append, no uniqueness check. -/
def addRule (rules : List Rule) (r : Rule) : List Rule :=
  rules ++ [r]

/-! ## Named concrete inputs used by witnesses and counterexamples -/

/-- Rule R1 of the built-in base. -/
def ruleR1 : Rule := builtinRules.get ⟨0, by decide⟩

/-- Rule R4 of the built-in base. -/
def ruleR4 : Rule := builtinRules.get ⟨3, by decide⟩

/-- The spec's own unemployed example (§8, also test A5): income 55000,
credit 680, unemployed, employment duration 0, age 28, 2 dependents, low
debt. -/
def unemployedApplicant : Applicant :=
  { applicant_id := "A5", income := 55000, credit_score := 680,
    employment_status := "Unemployed", employment_duration := 0, age := 28,
    dependents := 2, existing_debt := "Low" }

/-- Test applicant A1 of the repository's suite: a clean approval. -/
def approveApplicant : Applicant :=
  { applicant_id := "A1", income := 70000, credit_score := 760,
    employment_status := "Employed", employment_duration := 5, age := 30,
    dependents := 2, existing_debt := "Low" }

/-! ## Rule evaluation lemmas -/

/-- `Rule.evaluate` equals the conjunction of the per-condition
satisfaction predicate: the in-order, short-circuiting loop (with the
`try/except` mapping an exception to `False`) computes exactly
`all conditions satisfied`. -/
theorem evalAntecedents_eq_all (a : Applicant) (cs : List Condition) :
    evalAntecedents a cs = cs.all (condSat a) := by
  induction cs with
  | nil => rfl
  | cons c cs ih =>
    rw [List.all_cons]
    unfold evalAntecedents
    cases h : evalCondition a c with
    | error e => simp [condSat, h]
    | ok b => cases b <;> simp [condSat, h, ih]

/-- C4 — `Rule.evaluate` is the conjunction of its antecedent conditions,
checked in order with a stop at the first unsatisfied one, and it is total:
a condition whose attribute is missing evaluates to `False` without
raising, a condition whose evaluation raises (type mismatch) is treated as
unsatisfied by the rule, an unrecognized comparator yields `False`, and
`in_range` is the inclusive `lo <= value <= hi` check. -/
theorem rule_evaluate_conjunctive_fail_closed :
    (∀ (r : Rule) (a : Applicant), evalRule r a = r.antecedents.all (condSat a)) ∧
    (∀ (a : Applicant) (c : Condition),
      getAttr a c.attr = none → evalCondition a c = .ok false) ∧
    (∀ (a : Applicant) (c : Condition),
      evalCondition a c = .error () → condSat a c = false) ∧
    (∀ (a : Applicant) (c : Condition),
      c.op ≠ ">" → c.op ≠ ">=" → c.op ≠ "<" → c.op ≠ "<=" → c.op ≠ "==" →
      c.op ≠ "!=" → c.op ≠ "in_range" → evalCondition a c = .ok false) ∧
    (∀ (a : Applicant) (attr : String) (lo hi x : ℚ),
      getAttr a attr = some (.num x) →
      evalCondition a ⟨attr, "in_range", .pair lo hi⟩ =
        .ok (decide (lo ≤ x) && decide (x ≤ hi))) := by
  refine ⟨fun r a => evalAntecedents_eq_all a r.antecedents, ?_, ?_, ?_, ?_⟩
  · intro a c h
    unfold evalCondition
    rw [h]
  · intro a c h
    unfold condSat
    rw [h]
  · intro a c h1 h2 h3 h4 h5 h6 h7
    unfold evalCondition
    cases getAttr a c.attr with
    | none => rfl
    | some v =>
      simp only [beq_iff_eq]
      rw [if_neg h1, if_neg h2, if_neg h3, if_neg h4, if_neg h5, if_neg h6, if_neg h7]
  · intro a attr lo hi x h
    unfold evalCondition
    rw [h]
    rfl

/-- Witness for C4 at concrete inputs: rule R1 on test applicant A1; a
missing attribute; a number-vs-string type mismatch under `>`; an
unrecognized comparator; and the `in_range` bounds check on the income
of the unemployed example applicant. -/
theorem rule_evaluate_conjunctive_fail_closed_witness :
    evalRule ruleR1 approveApplicant =
      ruleR1.antecedents.all (condSat approveApplicant) ∧
    evalCondition approveApplicant ⟨"nonexistent", ">", .num 0⟩ = .ok false ∧
    condSat approveApplicant ⟨"income", ">", .str "sixty"⟩ = false ∧
    evalCondition approveApplicant ⟨"income", "between", .num 0⟩ = .ok false ∧
    evalCondition unemployedApplicant ⟨"income", "in_range", .pair 40000 60000⟩ =
      .ok (decide ((40000 : ℚ) ≤ 55000) && decide ((55000 : ℚ) ≤ 60000)) :=
  ⟨rule_evaluate_conjunctive_fail_closed.1 ruleR1 approveApplicant,
   rule_evaluate_conjunctive_fail_closed.2.1 approveApplicant _ (by rfl),
   rule_evaluate_conjunctive_fail_closed.2.2.1 approveApplicant _ (by rfl),
   rule_evaluate_conjunctive_fail_closed.2.2.2.1 approveApplicant _
     (by decide) (by decide) (by decide) (by decide) (by decide) (by decide) (by decide),
   rule_evaluate_conjunctive_fail_closed.2.2.2.2 unemployedApplicant "income"
     40000 60000 55000 (by rfl)⟩

/-! ## Backward chaining lemmas -/

/-- The per-goal satisfiability check of `_prove_goal`: some rule with this
consequent evaluates true against the applicant. -/
def goalProvable (rules : List Rule) (a : Applicant) (g : String) : Bool :=
  rules.any (fun r => r.consequent == g && evalRule r a)

/-- On a goal not yet memoized, `_prove_goal` at depth 0 is exactly the
single-level check `goalProvable`, and it memoizes the goal accordingly. -/
theorem proveGoal_fresh (rules : List Rule) (a : Applicant) (st : BCState)
    (g : String) (hp : g ∉ st.proven) (hf : g ∉ st.failed) :
    proveGoal rules a st g 0 =
      (goalProvable rules a g,
       if goalProvable rules a g then { st with proven := st.proven ++ [g] }
       else { st with failed := st.failed ++ [g] }) := by
  unfold proveGoal
  rw [if_neg hp, if_neg hf, if_neg (by decide : ¬ ((0 : Nat) > 10))]
  by_cases he : (rules.filter (fun r => r.consequent == g)).isEmpty = true
  · have hany : goalProvable rules a g = false := by
      rw [List.isEmpty_iff, List.filter_eq_nil_iff] at he
      unfold goalProvable
      rw [List.any_eq_false]
      intro r hr
      simp only [Bool.and_eq_true, not_and]
      intro hcons
      exact absurd hcons (he r hr)
    rw [if_pos he, hany]
    simp
  · rw [if_neg he]
    by_cases hs :
        ((rules.filter (fun r => r.consequent == g)).filter
          (fun r => evalRule r a)).isEmpty = true
    · have hany : goalProvable rules a g = false := by
        rw [List.isEmpty_iff, List.filter_eq_nil_iff] at hs
        unfold goalProvable
        rw [List.any_eq_false]
        intro r hr
        simp only [Bool.and_eq_true, not_and]
        intro hcons hev
        exact absurd hev (by simpa using hs r (List.mem_filter.mpr ⟨hr, hcons⟩))
      rw [if_pos hs, hany]
      simp
    · have hany : goalProvable rules a g = true := by
        rw [List.isEmpty_iff] at hs
        obtain ⟨r, hr⟩ := List.exists_mem_of_ne_nil _ hs
        have h1 := List.mem_filter.mp hr
        have h2 := List.mem_filter.mp h1.1
        unfold goalProvable
        rw [List.any_eq_true]
        exact ⟨r, h2.1, by simp [h2.2, h1.2]⟩
      rw [if_neg hs, hany]
      simp

/-- The goal loop on a duplicate-free goal list none of whose goals is
memoized yet is a first-match search with `goalProvable`. -/
theorem bcGo_eq_find (rules : List Rule) (a : Applicant) :
    ∀ (goals : List String) (st : BCState), goals.Nodup →
      (∀ g ∈ goals, g ∉ st.proven ∧ g ∉ st.failed) →
      bcGo rules a st goals = goals.find? (goalProvable rules a) := by
  intro goals
  induction goals with
  | nil => intro st _ _; rfl
  | cons g gs ih =>
    intro st hnd hfresh
    have hg := hfresh g (List.mem_cons_self g gs)
    unfold bcGo
    rw [proveGoal_fresh rules a st g hg.1 hg.2]
    by_cases hpv : goalProvable rules a g = true
    · simp [hpv, List.find?]
    · have hpv' : goalProvable rules a g = false := by
        revert hpv; cases goalProvable rules a g <;> simp
      have hrest : bcGo rules a { st with failed := st.failed ++ [g] } gs =
          gs.find? (goalProvable rules a) := by
        refine ih _ (List.Nodup.of_cons hnd) ?_
        intro g' hg'
        have h1 := hfresh g' (List.mem_cons_of_mem g hg')
        refine ⟨h1.1, ?_⟩
        simp only [List.mem_append, List.mem_singleton]
        rintro (h | h)
        · exact h1.2 h
        · subst h
          exact (List.nodup_cons.mp hnd).1 hg'
      simp only [hpv', Bool.false_eq_true, if_false]
      rw [hrest, List.find?]
      simp [hpv']

/-- C5 — `BackwardChaining.infer` attempts goals in the fixed order
Reject Loan, Approve Loan, Approve with Conditions, Manual Review, and
returns the first goal for which at least one rule with that consequent
evaluates true against the fact — a single-level matching-rule check, with
no recursive expansion of antecedents — defaulting to Manual Review when
no goal in the order is provable. -/
theorem backward_chaining_goal_order (rules : List Rule) (a : Applicant) :
    bcGoals = ["Reject Loan", "Approve Loan", "Approve with Conditions",
      "Manual Review"] ∧
    bcDecision rules a =
      (bcGoals.find? (fun g =>
        rules.any (fun r => r.consequent == g && evalRule r a))).getD
        "Manual Review" := by
  refine ⟨rfl, ?_⟩
  unfold bcDecision
  rw [bcGo_eq_find rules a bcGoals ⟨[], []⟩ (by decide) (by simp)]
  rfl

/-! ## Termination bounds -/

/-- The pass counter of the forward-chaining loop never exceeds the
remaining fuel plus the passes already taken. -/
theorem fcLoop_passes_le (rules : List Rule) (a : Applicant) :
    ∀ (fuel : Nat) (fired : List Rule) (gs : List (String × List Rule))
      (p : Nat), (fcLoop rules a fuel fired gs p).2.2 ≤ p + fuel := by
  intro fuel
  induction fuel with
  | zero => intro fired gs p; simp [fcLoop]
  | succ n ih =>
    intro fired gs p
    unfold fcLoop
    by_cases h : (fcNewlyFired rules a fired).isEmpty = true
    · simp only [h, if_true]
      omega
    · simp only [h, Bool.false_eq_true, if_false]
      calc (fcLoop rules a n _ _ (p + 1)).2.2 ≤ (p + 1) + n := ih _ _ _
        _ = p + (n + 1) := by omega

/-- C8 — forward chaining executes at most `2 × |rule base|` fixed-point
passes for every rule base and fact record, and a `_prove_goal` call past
the recursion-depth guard of 10 returns false immediately, leaving the
memo state untouched (the guard is checked after the memo lookups; in
fact `_prove_goal` contains no recursive call at all, so in this
embedding every goal-proving call is a single terminating step). -/
theorem inference_termination_bounds :
    (∀ (rules : List Rule) (a : Applicant),
      fcPasses rules a ≤ 2 * rules.length) ∧
    (∀ (rules : List Rule) (a : Applicant) (st : BCState) (g : String)
      (d : Nat), 10 < d → g ∉ st.proven →
      proveGoal rules a st g d = (false, st)) := by
  constructor
  · intro rules a
    have h := fcLoop_passes_le rules a (2 * rules.length) [] [] 0
    simpa [fcPasses, fcRun] using h
  · intro rules a st g d hd hp
    unfold proveGoal
    rw [if_neg hp]
    by_cases hf : g ∈ st.failed
    · rw [if_pos hf]
    · rw [if_neg hf, if_pos hd]

/-- Witness for C8: the built-in rule base on test applicant A1, and a
depth-11 goal-proving call on a fresh memo state. -/
theorem inference_termination_bounds_witness :
    fcPasses builtinRules approveApplicant ≤ 2 * builtinRules.length ∧
    proveGoal builtinRules approveApplicant ⟨[], []⟩ "Reject Loan" 11 =
      (false, ⟨[], []⟩) :=
  ⟨inference_termination_bounds.1 builtinRules approveApplicant,
   inference_termination_bounds.2 builtinRules approveApplicant ⟨[], []⟩
     "Reject Loan" 11 (by decide) (by decide)⟩

/-! ## Trace logger lemmas -/

/-- Replaying any event list onto a logger within capacity fills the trace
to the capped length. -/
theorem logAll_length (events : List (String × String × Option String)) :
    ∀ tl : TraceLogger, tl.trace.length ≤ tl.max_depth →
      (tl.logAll events).trace.length =
        min tl.max_depth (tl.trace.length + events.length) := by
  induction events with
  | nil =>
    intro tl h
    simp [TraceLogger.logAll, Nat.min_eq_right h]
  | cons e es ih =>
    intro tl h
    show (TraceLogger.logAll (tl.log e.1 e.2.1 e.2.2) es).trace.length = _
    by_cases hlt : tl.trace.length < tl.max_depth
    · have hlog : (tl.log e.1 e.2.1 e.2.2).trace =
          tl.trace ++ [⟨e.1, e.2.1, e.2.2⟩] := by
        unfold TraceLogger.log
        rw [if_pos hlt]

      have hlen : (tl.log e.1 e.2.1 e.2.2).trace.length = tl.trace.length + 1 := by
        rw [hlog]; simp
      have hmd : (tl.log e.1 e.2.1 e.2.2).max_depth = tl.max_depth := by
        unfold TraceLogger.log
        rw [if_pos hlt]
      rw [ih _ (by rw [hlen, hmd]; omega), hlen, hmd]
      congr 1
      simp
      omega
    · have heq : tl.log e.1 e.2.1 e.2.2 = tl := by
        unfold TraceLogger.log
        rw [if_neg hlt]
      have hfull : tl.trace.length = tl.max_depth := by omega
      rw [heq, ih tl h, hfull, Nat.min_eq_left (Nat.le_add_right _ _),
        Nat.min_eq_left (Nat.le_add_right _ _)]

/-- C9 — the trace is append-only and capacity-bounded: a log call on a
full trace is silently dropped and leaves the logger unchanged, every log
call preserves `length(trace) ≤ capacity`, and a run of more than `N`
log-worthy events against capacity `N` yields a summary with
`total_entries = N`. -/
theorem trace_capacity_bound :
    (∀ (tl : TraceLogger) (level message : String) (rid : Option String),
      tl.trace.length ≤ tl.max_depth →
      (tl.log level message rid).trace.length ≤ tl.max_depth) ∧
    (∀ (tl : TraceLogger) (level message : String) (rid : Option String),
      tl.max_depth ≤ tl.trace.length → tl.log level message rid = tl) ∧
    (∀ (N : Nat) (events : List (String × String × Option String)),
      N < events.length →
      (TraceLogger.logAll ⟨N, []⟩ events).get_summary.total_entries = N) := by
  refine ⟨?_, ?_, ?_⟩
  · intro tl level message rid h
    unfold TraceLogger.log
    by_cases hlt : tl.trace.length < tl.max_depth
    · rw [if_pos hlt]; simp; omega
    · rw [if_neg hlt]; exact h
  · intro tl level message rid h
    unfold TraceLogger.log
    rw [if_neg (by omega)]
  · intro N events h
    have := logAll_length events ⟨N, []⟩ (by simp)
    show (TraceLogger.logAll ⟨N, []⟩ events).trace.length = N
    rw [this]
    simp only [List.length_nil, Nat.zero_add]
    exact Nat.min_eq_left (Nat.le_of_lt h)

/-- Witness for C9: capacity 2, a full logger rejecting a third entry, and
a 3-event run capped at 2 entries. -/
theorem trace_capacity_bound_witness :
    (TraceLogger.log ⟨2, [⟨"SYSTEM", "a", none⟩]⟩ "SYSTEM" "b"
      none).trace.length ≤ 2 ∧
    TraceLogger.log ⟨2, [⟨"SYSTEM", "a", none⟩, ⟨"SYSTEM", "b", none⟩]⟩
      "SYSTEM" "c" none =
      ⟨2, [⟨"SYSTEM", "a", none⟩, ⟨"SYSTEM", "b", none⟩]⟩ ∧
    (TraceLogger.logAll ⟨2, []⟩
      [("SYSTEM", "a", none), ("SYSTEM", "b", none),
       ("SYSTEM", "c", none)]).get_summary.total_entries = 2 :=
  ⟨trace_capacity_bound.1 ⟨2, [⟨"SYSTEM", "a", none⟩]⟩ "SYSTEM" "b" none
     (by decide),
   trace_capacity_bound.2.1 _ "SYSTEM" "c" none (by decide),
   trace_capacity_bound.2.2 2 _ (by decide)⟩

/-! ## Conflict resolver lemmas -/

/-- CPython `max` returns an element of its input. -/
theorem maxBy_mem {K : Type} [LinearOrder K] (key : Rule → K) :
    ∀ (xs : List Rule) (x : Rule), maxBy key x xs ∈ x :: xs := by
  intro xs
  induction xs with
  | nil => intro x; simp [maxBy]
  | cons y ys ih =>
    intro x
    have h := ih (if key x < key y then y else x)
    show maxBy key (if key x < key y then y else x) ys ∈ x :: y :: ys
    rcases List.mem_cons.mp h with h1 | h1
    · rw [h1]
      by_cases hxy : key x < key y
      · rw [if_pos hxy]; exact List.mem_cons_of_mem _ (List.mem_cons_self _ _)
      · rw [if_neg hxy]; exact List.mem_cons_self _ _
    · exact List.mem_cons_of_mem _ (List.mem_cons_of_mem _ h1)

/-- CPython `max` dominates every element of its input under the key
order. -/
theorem maxBy_le {K : Type} [LinearOrder K] (key : Rule → K) :
    ∀ (xs : List Rule) (x r : Rule), r ∈ x :: xs →
      key r ≤ key (maxBy key x xs) := by
  intro xs
  induction xs with
  | nil =>
    intro x r hr
    rcases List.mem_cons.mp hr with h1 | h1
    · rw [h1]; exact le_refl _
    · exact absurd h1 (List.not_mem_nil r)
  | cons y ys ih =>
    intro x r hr
    show key r ≤ key (maxBy key (if key x < key y then y else x) ys)
    have hxb : key x ≤ key (if key x < key y then y else x) := by
      by_cases hxy : key x < key y
      · rw [if_pos hxy]; exact le_of_lt hxy
      · rw [if_neg hxy]
    have hyb : key y ≤ key (if key x < key y then y else x) := by
      by_cases hxy : key x < key y
      · rw [if_pos hxy]
      · rw [if_neg hxy]; exact not_lt.mp hxy
    have hb := ih (if key x < key y then y else x) (if key x < key y then y else x)
      (List.mem_cons_self _ _)
    rcases List.mem_cons.mp hr with h1 | h1
    · exact h1 ▸ hxb.trans hb
    · rcases List.mem_cons.mp h1 with h2 | h2
      · exact h2 ▸ hyb.trans hb
      · exact ih _ r (List.mem_cons_of_mem _ h2)

/-- The priority key determines the rule identifier (it is the key's last
component). -/
theorem priorityKey_inj_rule_id {p q : Rule}
    (h : priorityKey p = priorityKey q) : p.rule_id = q.rule_id := by
  unfold priorityKey at h
  have h1 := toLex_inj.mp h
  have h2 := toLex_inj.mp (congrArg Prod.snd h1)
  exact congrArg Prod.snd h2

/-- The specificity key determines the rule identifier. -/
theorem specificityKey_inj_rule_id {p q : Rule}
    (h : specificityKey p = specificityKey q) : p.rule_id = q.rule_id := by
  unfold specificityKey at h
  have h1 := toLex_inj.mp h
  have h2 := toLex_inj.mp (congrArg Prod.snd h1)
  exact congrArg Prod.snd h2

/-- A rule base with pairwise-distinct rule identifiers (the documented
invariant "identifier is the logical key"). -/
def idsPairwiseDistinct (rules : List Rule) : Prop :=
  rules.Pairwise (fun p q => p.rule_id ≠ q.rule_id)

/-- C6 — `ConflictResolver.resolve`: `None` for an empty candidate list;
the sole candidate, unchanged, for a singleton; for two or more
candidates, the maximum of the strategy's lexicographic key — (priority
level desc, specificity desc, rule id) for `priority` and
`priority_specificity`, (specificity desc, priority level desc, rule id)
for `specificity` — where the priority level maps High=3, Medium=2, Low=1
and anything else to 0, and the rule identifier is the final tie-break,
strictly deciding whenever identifiers are pairwise distinct. -/
theorem conflict_resolver_total_order :
    (∀ s : String, resolve s [] = none) ∧
    (∀ (s : String) (r : Rule), resolve s [r] = some r) ∧
    (priorityScore "High" = 3 ∧ priorityScore "Medium" = 2 ∧
      priorityScore "Low" = 1 ∧
      ∀ p : String, p ≠ "High" → p ≠ "Medium" → p ≠ "Low" →
        priorityScore p = 0) ∧
    (∀ (s : String) (rules : List Rule), 2 ≤ rules.length →
      s = "priority" ∨ s = "priority_specificity" →
      ∃ w, resolve s rules = some w ∧ w ∈ rules ∧
        (∀ r ∈ rules, priorityKey r ≤ priorityKey w) ∧
        (idsPairwiseDistinct rules → ∀ r ∈ rules, r ≠ w →
          priorityKey r < priorityKey w)) ∧
    (∀ rules : List Rule, 2 ≤ rules.length →
      ∃ w, resolve "specificity" rules = some w ∧ w ∈ rules ∧
        (∀ r ∈ rules, specificityKey r ≤ specificityKey w) ∧
        (idsPairwiseDistinct rules → ∀ r ∈ rules, r ≠ w →
          specificityKey r < specificityKey w)) := by
  refine ⟨fun s => rfl, fun s r => rfl,
    ⟨rfl, rfl, rfl, ?_⟩, ?_, ?_⟩
  · intro p h1 h2 h3
    unfold priorityScore
    simp only [beq_iff_eq]
    rw [if_neg h1, if_neg h2, if_neg h3]
  · intro s rules hlen hs
    match rules, hlen with
    | x :: y :: zs, _ =>
      have hres : resolve s (x :: y :: zs) = some (maxBy priorityKey x (y :: zs)) := by
        rcases hs with rfl | rfl
        · rfl
        · rfl
      refine ⟨maxBy priorityKey x (y :: zs), hres,
        maxBy_mem priorityKey (y :: zs) x,
        fun r hr => maxBy_le priorityKey (y :: zs) x r hr, ?_⟩
      intro hpd r hr hne
      refine lt_of_le_of_ne (maxBy_le priorityKey (y :: zs) x r hr) ?_
      intro hkey
      exact List.Pairwise.forall (fun p q h => (h ∘ Eq.symm : q.rule_id ≠ p.rule_id))
        hpd hr (maxBy_mem priorityKey (y :: zs) x) hne
        (priorityKey_inj_rule_id hkey)
  · intro rules hlen
    match rules, hlen with
    | x :: y :: zs, _ =>
      refine ⟨maxBy specificityKey x (y :: zs), rfl,
        maxBy_mem specificityKey (y :: zs) x,
        fun r hr => maxBy_le specificityKey (y :: zs) x r hr, ?_⟩
      intro hpd r hr hne
      refine lt_of_le_of_ne (maxBy_le specificityKey (y :: zs) x r hr) ?_
      intro hkey
      exact List.Pairwise.forall (fun p q h => (h ∘ Eq.symm : q.rule_id ≠ p.rule_id))
        hpd hr (maxBy_mem specificityKey (y :: zs) x) hne
        (specificityKey_inj_rule_id hkey)

/-- Witness for C6: an unrecognized priority label, and the two-element
candidate list [R4, R1] under both key orders. -/
theorem conflict_resolver_total_order_witness :
    priorityScore "Critical" = 0 ∧
    (∃ w, resolve "priority" [ruleR4, ruleR1] = some w ∧
      w ∈ [ruleR4, ruleR1] ∧
      (∀ r ∈ [ruleR4, ruleR1], priorityKey r ≤ priorityKey w) ∧
      (idsPairwiseDistinct [ruleR4, ruleR1] → ∀ r ∈ [ruleR4, ruleR1],
        r ≠ w → priorityKey r < priorityKey w)) ∧
    (∃ w, resolve "specificity" [ruleR4, ruleR1] = some w ∧
      w ∈ [ruleR4, ruleR1] ∧
      (∀ r ∈ [ruleR4, ruleR1], specificityKey r ≤ specificityKey w) ∧
      (idsPairwiseDistinct [ruleR4, ruleR1] → ∀ r ∈ [ruleR4, ruleR1],
        r ≠ w → specificityKey r < specificityKey w)) :=
  ⟨conflict_resolver_total_order.2.2.1.2.2.2 "Critical" (by decide) (by decide)
     (by decide),
   conflict_resolver_total_order.2.2.2.1 "priority" [ruleR4, ruleR1]
     (by decide) (Or.inl rfl),
   conflict_resolver_total_order.2.2.2.2 [ruleR4, ruleR1] (by decide)⟩

/-! ## Orchestrator merge lemmas -/

/-- `Config.DECISIONS` (src/config.py): the closed decision enumeration. -/
def decisionLabels : List String :=
  ["Approve Loan", "Approve with Conditions", "Reject Loan", "Manual Review"]

/-- The higher-precedence label of two decisions, forward's kept on a
tie (as the source's `>=` does). -/
def higherPrecedence (fc bc : String) : String :=
  if decisionScore bc ≤ decisionScore fc then fc else bc

/-- C3 — when both strategies ran, the merge keeps an agreed decision with
the agreement recorded in the reasoning; on disagreement it keeps
whichever of the two candidates ranks higher under Reject Loan > Manual
Review > Approve with Conditions > Approve Loan, recording both original
opinions in the reasoning string. -/
theorem merge_precedence (fc bc : String) (hfc : fc ∈ decisionLabels)
    (hbc : bc ∈ decisionLabels) :
    (fc = bc →
      mergeDecisions fc bc =
        some (fc, "Both forward and backward chaining agree")) ∧
    (fc ≠ bc →
      mergeDecisions fc bc =
        some (higherPrecedence fc bc,
          "Forward chaining: " ++ fc ++ ", Backward chaining: " ++ bc) ∧
      (higherPrecedence fc bc = fc ∨ higherPrecedence fc bc = bc) ∧
      decisionScore fc ≤ decisionScore (higherPrecedence fc bc) ∧
      decisionScore bc ≤ decisionScore (higherPrecedence fc bc)) := by
  simp only [decisionLabels, List.mem_cons, List.not_mem_nil, or_false] at hfc hbc
  rcases hfc with rfl | rfl | rfl | rfl <;> rcases hbc with rfl | rfl | rfl | rfl <;>
    refine ⟨fun h => ?_, fun h => ?_⟩ <;>
      first
        | decide
        | exact absurd h (by decide)

/-- Witness for C3: the agreement case at Reject Loan, and the A5-style
disagreement Manual Review (forward) vs Reject Loan (backward), resolved
to Reject Loan. -/
theorem merge_precedence_witness :
    mergeDecisions "Reject Loan" "Reject Loan" =
      some ("Reject Loan", "Both forward and backward chaining agree") ∧
    mergeDecisions "Manual Review" "Reject Loan" =
      some ("Reject Loan",
        "Forward chaining: Manual Review, Backward chaining: Reject Loan") :=
  ⟨(merge_precedence "Reject Loan" "Reject Loan" (by decide) (by decide)).1
     rfl,
   ((merge_precedence "Manual Review" "Reject Loan" (by decide)
     (by decide)).2 (by decide)).1⟩

/-! ## Decision-label membership lemmas -/

/-- The backward-chaining decision is always one of the four goals. -/
theorem bcDecision_mem_labels (rules : List Rule) (a : Applicant) :
    bcDecision rules a ∈ decisionLabels := by
  unfold bcDecision
  rw [bcGo_eq_find rules a bcGoals ⟨[], []⟩ (by decide) (by simp)]
  cases hf : bcGoals.find? (goalProvable rules a) with
  | none => decide
  | some g =>
    have hg := List.mem_of_find?_eq_some hf
    have : ∀ x ∈ bcGoals, x ∈ decisionLabels := by decide
    simpa using this g hg

/-- `addToGroups` introduces no key beyond the existing ones and the new
rule's consequent. -/
theorem keys_addToGroups (gs : List (String × List Rule)) (r : Rule) :
    ∀ k ∈ (addToGroups gs r).map Prod.fst,
      k ∈ gs.map Prod.fst ∨ k = r.consequent := by
  unfold addToGroups
  by_cases h : gs.any (fun p => p.1 == r.consequent) = true
  · rw [if_pos h]
    intro k hk
    left
    have heq : (gs.map (fun p =>
        if p.1 == r.consequent then (p.1, p.2 ++ [r]) else p)).map Prod.fst =
        gs.map Prod.fst := by
      rw [List.map_map]
      apply List.map_congr_left
      intro p _
      simp only [Function.comp_apply]
      by_cases hp : (p.1 == r.consequent) = true
      · rw [if_pos hp]
      · rw [if_neg hp]
    rwa [heq] at hk
  · rw [if_neg h]
    intro k hk
    rw [List.map_append, List.mem_append] at hk
    rcases hk with hk | hk
    · exact Or.inl hk
    · exact Or.inr (by simpa using hk)

/-- Folding fired rules into groups only creates keys among the existing
ones and the fired rules' consequents. -/
theorem keys_foldl_addToGroups (new : List Rule) :
    ∀ (gs : List (String × List Rule)) (k : String),
      k ∈ (new.foldl addToGroups gs).map Prod.fst →
      k ∈ gs.map Prod.fst ∨ k ∈ new.map (fun r => r.consequent) := by
  induction new with
  | nil => intro gs k hk; exact Or.inl hk
  | cons r rs ih =>
    intro gs k hk
    rw [List.foldl_cons] at hk
    rcases ih (addToGroups gs r) k hk with h | h
    · rcases keys_addToGroups gs r k h with h' | h'
      · exact Or.inl h'
      · exact Or.inr (by simp [h'])
    · exact Or.inr (by simp; right; simpa using h)

/-- Every decision key produced by the forward-chaining loop is the
consequent of some rule of the rule base (or was already a key). -/
theorem fcLoop_keys (rules : List Rule) (a : Applicant) :
    ∀ (fuel : Nat) (fired : List Rule) (gs : List (String × List Rule))
      (p : Nat) (k : String),
      k ∈ ((fcLoop rules a fuel fired gs p).2.1).map Prod.fst →
      k ∈ gs.map Prod.fst ∨ k ∈ rules.map (fun r => r.consequent) := by
  intro fuel
  induction fuel with
  | zero => intro fired gs p k hk; exact Or.inl hk
  | succ n ih =>
    intro fired gs p k hk
    have hnew : ∀ k', k' ∈ (fcNewlyFired rules a fired).map
        (fun r => r.consequent) → k' ∈ rules.map (fun r => r.consequent) := by
      intro k' hk'
      rw [List.mem_map] at hk' ⊢
      obtain ⟨r, hr, hrk⟩ := hk'
      exact ⟨r, List.mem_of_mem_filter hr, hrk⟩
    unfold fcLoop at hk
    by_cases h : (fcNewlyFired rules a fired).isEmpty = true
    · rw [if_pos h] at hk
      rcases keys_foldl_addToGroups _ gs k hk with h' | h'
      · exact Or.inl h'
      · exact Or.inr (hnew k h')
    · rw [if_neg h] at hk
      rcases ih _ _ _ k hk with h' | h'
      · rcases keys_foldl_addToGroups _ gs k h' with h'' | h''
        · exact Or.inl h''
        · exact Or.inr (hnew k h'')
      · exact Or.inr h'

/-- With the built-in rule base, the forward-chaining decision is always
one of the four labels. -/
theorem fcDecision_mem_labels (a : Applicant) :
    fcDecision builtinRules a ∈ decisionLabels := by
  unfold fcDecision
  by_cases h : ((fcRun builtinRules a).2.1).length > 1
  · rw [if_pos h, resolveByDecision_const]
    decide
  · rw [if_neg h]
    cases hgs : (fcRun builtinRules a).2.1 with
    | nil => decide
    | cons g tail =>
      have hk : g.1 ∈ ((fcRun builtinRules a).2.1).map Prod.fst := by
        rw [hgs]; exact List.mem_cons_self _ _
      have := fcLoop_keys builtinRules a (2 * builtinRules.length) [] [] 0 g.1 hk
      rcases this with h' | h'
      · simp at h'
      · have hall : ∀ x ∈ builtinRules.map (fun r => r.consequent),
            x ∈ decisionLabels := by decide
        exact hall g.1 h'

/-- On two of the four labels, the merge step never hits the `KeyError`
escape. -/
theorem mergeDecisions_isSome (fc bc : String) (hfc : fc ∈ decisionLabels)
    (hbc : bc ∈ decisionLabels) : (mergeDecisions fc bc).isSome = true := by
  simp only [decisionLabels, List.mem_cons, List.not_mem_nil, or_false]
    at hfc hbc
  rcases hfc with rfl | rfl | rfl | rfl <;>
    rcases hbc with rfl | rfl | rfl | rfl <;> decide

/-- C7 (amended) — during one `evaluate_applicant` call with both
strategies, the fact record's decision field is written three times —
once by forward chaining, once by backward chaining (which runs against
the record forward chaining already mutated), and last by the
orchestrator — and the orchestrator's write is authoritative: the record
ends up holding exactly the merged final decision. -/
theorem orchestrator_write_last_authoritative (a : Applicant) :
    ∃ run, evaluateApplicantBoth builtinRules a = some run ∧
      run.decisionWrites =
        [fcDecision builtinRules a,
         bcDecision builtinRules
           { a with decision := some (fcDecision builtinRules a) },
         run.finalDecision] ∧
      run.applicant.decision = some run.finalDecision ∧
      run.decisionWrites.getLast? = some run.finalDecision := by
  have hsome := mergeDecisions_isSome (fcDecision builtinRules a)
    (bcDecision builtinRules
      { a with decision := some (fcDecision builtinRules a) })
    (fcDecision_mem_labels a)
    (bcDecision_mem_labels builtinRules _)
  obtain ⟨⟨final, why⟩, hm⟩ := Option.isSome_iff_exists.mp hsome
  simp only [evaluateApplicantBoth]
  rw [hm]
  exact ⟨_, rfl, rfl, rfl, rfl⟩

/-- Counterexample for C7 as stated: on the unemployed example applicant,
one evaluation call writes the decision field three times, not exactly
once. -/
theorem decision_written_thrice_counterexample :
    (evaluateApplicantBoth builtinRules unemployedApplicant).map
      (fun r => r.decisionWrites.length) = some 3 ∧
    ¬ ((evaluateApplicantBoth builtinRules unemployedApplicant).map
      (fun r => r.decisionWrites.length) = some 1) := by decide

/-! ## Dead precedence table and the unemployed example -/

/-- C1 (code bug) — `resolve_by_decision` compares the tuple
`decision_score` with the int `-1` that `best_score` is initialized to;
Python 3 raises `TypeError` on that comparison, the `except` clause turns
it into `continue`, and since `best_score` is only ever reassigned after a
successful comparison, every group is skipped: the function returns
`'Manual Review'` for every grouping, including the failing input
[(Reject Loan, [R4]), (Approve Loan, [R1])] on which the claim expects
Reject Loan. -/
theorem resolve_by_decision_dead_precedence :
    resolveByDecision defaultStrategy
      [("Reject Loan", [ruleR4]), ("Approve Loan", [ruleR1])] =
      "Manual Review" ∧
    ∀ (strategy : String) (groups : List (String × List Rule)),
      resolveByDecision strategy groups = "Manual Review" :=
  ⟨resolveByDecision_const _ _, resolveByDecision_const⟩

/-- C2 (code bug) — on the spec's own unemployed example (income 55000,
credit 680, unemployed, duration 0, age 28), rules R4 (Reject Loan) and
R8 (Manual Review) both fire, forward chaining therefore delegates to the
broken `resolve_by_decision` and returns `'Manual Review'`, not
`'Reject Loan'`; backward chaining does return `'Reject Loan'`. -/
theorem unemployed_forward_not_reject :
    fcDecision builtinRules unemployedApplicant = "Manual Review" ∧
    fcDecision builtinRules unemployedApplicant ≠ "Reject Loan" ∧
    bcDecision builtinRules unemployedApplicant = "Reject Loan" := by
  decide

/-! ## Rule-base lookup/removal asymmetry -/

/-- C10 — `get_rule_by_id` returns the first rule in insertion order whose
identifier matches, `remove_rule` removes every rule bearing the
identifier, and `add_rule` appends unconditionally (no uniqueness
enforcement), so lookup and removal behave asymmetrically for duplicated
identifiers. -/
theorem rulebase_duplicate_id_asymmetry :
    (∀ (rules : List Rule) (rid : String) (r : Rule),
      getRuleById rules rid = some r →
      r.rule_id = rid ∧ ∃ pre post, rules = pre ++ r :: post ∧
        ∀ x ∈ pre, x.rule_id ≠ rid) ∧
    (∀ (rules : List Rule) (rid : String) (x : Rule),
      x ∈ removeRule rules rid ↔ x ∈ rules ∧ x.rule_id ≠ rid) ∧
    (∀ (rules : List Rule) (r : Rule),
      (addRule rules r).length = rules.length + 1) := by
  refine ⟨?_, ?_, ?_⟩
  · intro rules rid
    induction rules with
    | nil => intro r h; exact absurd h (by simp [getRuleById])
    | cons y ys ih =>
      intro r h
      unfold getRuleById at h
      by_cases hy : (y.rule_id == rid) = true
      · rw [if_pos hy] at h
        obtain rfl := Option.some.inj h
        exact ⟨by simpa using hy, [], ys, rfl, by simp⟩
      · rw [if_neg hy] at h
        obtain ⟨hid, pre, post, hsplit, hpre⟩ := ih r h
        refine ⟨hid, y :: pre, post, by rw [hsplit]; rfl, ?_⟩
        intro x hx
        rcases List.mem_cons.mp hx with rfl | hx'
        · simpa using hy
        · exact hpre x hx'
  · intro rules rid x
    simp [removeRule, List.mem_filter]
  · intro rules r
    simp [addRule]

/-- Rules sharing the identifier `D1`, for the duplicated-id witness. -/
def dupRuleA : Rule :=
  { rule_id := "D1", antecedents := [], consequent := "Approve Loan",
    priority := "High", specificity := 1 }

/-- A second, different rule with the same identifier `D1`. -/
def dupRuleB : Rule :=
  { rule_id := "D1", antecedents := [], consequent := "Reject Loan",
    priority := "Low", specificity := 2 }

/-- Witness for C10 on a base holding two rules with the same id `D1`:
lookup returns the first, removal removes both, append never rejects. -/
theorem rulebase_duplicate_id_asymmetry_witness :
    (dupRuleA.rule_id = "D1" ∧ ∃ pre post,
      [dupRuleA, dupRuleB] = pre ++ dupRuleA :: post ∧
      ∀ x ∈ pre, x.rule_id ≠ "D1") ∧
    (dupRuleB ∈ removeRule [dupRuleA, dupRuleB] "D1" ↔
      dupRuleB ∈ [dupRuleA, dupRuleB] ∧ dupRuleB.rule_id ≠ "D1") ∧
    (addRule [dupRuleA] dupRuleB).length = [dupRuleA].length + 1 :=
  ⟨rulebase_duplicate_id_asymmetry.1 [dupRuleA, dupRuleB] "D1" dupRuleA rfl,
   rulebase_duplicate_id_asymmetry.2.1 [dupRuleA, dupRuleB] "D1" dupRuleB,
   rulebase_duplicate_id_asymmetry.2.2 [dupRuleA] dupRuleB⟩
